import Mathlib

/-!
Verification of the durable bounded work queue and producer pipeline of
geo-dataset-builder.

The embedding models:
- `src/queue_manager.py` (class QueueManager): rows of the sqlite table
  `output_queue` become `Row`; the table (in rowid order, which is the
  autoincrement insertion order) becomes `QueueState`; each method becomes a
  pure function on `QueueState`.  Wall-clock `time.time()` values are passed
  in explicitly as `Nat` timestamps.  Path resolution (`Path(p).resolve()`) is
  abstracted: keys are already-resolved strings.
- `src/main.py`: the per-item pipeline `_process_single_annotation` becomes
  `processSingleItem`; the inlined sequential batch loop becomes `seqRun`;
  the HDF5 collect-then-write_all branches become `hdf5Run`; the concurrent
  worker pool becomes the transition system `PoolStep`.
-/

/-- Status column of the `output_queue` table: the schema default is
`'pending'`; `mark_processing` writes `'processing'`; completed rows are
deleted rather than given a status. -/
inductive Status where
  | pending
  | processing
deriving DecidableEq

/-- One row of `output_queue`: `file_path TEXT NOT NULL UNIQUE`,
`created_at REAL NOT NULL`, `status TEXT NOT NULL DEFAULT 'pending'`,
`processed_at REAL` (nullable). The autoincrement `id` is the row's position
in the list. -/
structure Row where
  key : String
  created_at : Nat
  status : Status
  processed_at : Option Nat
deriving DecidableEq

/-- The `output_queue` table, rows in rowid (insertion) order. -/
structure QueueState where
  rows : List Row
deriving DecidableEq

/-- Membership test behind the UNIQUE constraint on `file_path`: an INSERT
with an existing key raises `sqlite3.IntegrityError`. -/
def containsKey (s : QueueState) (key : String) : Bool :=
  s.rows.any (fun r => r.key == key)

/-- QueueManager.add_output: INSERT a `'pending'` row with the current
timestamp; on IntegrityError (duplicate `file_path`) return False and leave
the table untouched. -/
def addOutput (now : Nat) (key : String) (s : QueueState) : Bool × QueueState :=
  if containsKey s key then
    (false, s)
  else
    (true, ⟨s.rows ++ [⟨key, now, Status.pending, none⟩]⟩)

/-- QueueManager.count_unprocessed: SELECT COUNT(*) WHERE status = 'pending'. -/
def countUnprocessed (s : QueueState) : Nat :=
  (s.rows.filter (fun r => r.status == Status.pending)).length

/-- QueueManager.can_produce: count_unprocessed() < max_unprocessed. -/
def canProduce (maxUnprocessed : Nat) (s : QueueState) : Bool :=
  decide (countUnprocessed s < maxUnprocessed)

/-- Helper for the ORDER BY created_at ASC LIMIT 1 read: the row of minimal
`created_at`, ties resolved to the earliest row in table order. -/
def oldestRow : List Row → Option Row
  | [] => none
  | r :: rest =>
    match oldestRow rest with
    | none => some r
    | some b => if r.created_at ≤ b.created_at then some r else some b

/-- QueueManager.get_next_pending: SELECT file_path WHERE status = 'pending'
ORDER BY created_at ASC LIMIT 1; a pure read, the table is not modified. -/
def getNextPending (s : QueueState) : Option String :=
  (oldestRow (s.rows.filter (fun r => r.status == Status.pending))).map
    (fun r => r.key)

/-- QueueManager.mark_processing: UPDATE SET status = 'processing' WHERE
file_path = ? AND status = 'pending'; the result is `cursor.rowcount > 0`.
Note the UPDATE touches only the status column. -/
def markProcessing (key : String) (s : QueueState) : Bool × QueueState :=
  (s.rows.any (fun r => r.key == key && r.status == Status.pending),
   ⟨s.rows.map (fun r =>
      if r.key == key && r.status == Status.pending then
        { r with status := Status.processing }
      else r)⟩)

/-- QueueManager.mark_completed: DELETE WHERE file_path = ?. -/
def markCompleted (key : String) (s : QueueState) : QueueState :=
  ⟨s.rows.filter (fun r => !(r.key == key))⟩

/-- Spec-side count of rows whose status is `'pending'`, written directly
from the spec's words (count of rows with status = pending), to compare with
the code's read path. -/
def countPendingSpec (s : QueueState) : Nat :=
  s.rows.countP (fun r => r.status == Status.pending)

theorem countUnprocessed_eq_countPendingSpec (s : QueueState) :
    countUnprocessed s = countPendingSpec s := by
  simp [countUnprocessed, countPendingSpec, List.countP_eq_length_filter]

theorem canProduce_true_iff (maxUnprocessed : Nat) (s : QueueState) :
    canProduce maxUnprocessed s = true ↔ countUnprocessed s < maxUnprocessed := by
  simp [canProduce]

/-- C4: can_produce() returns true exactly when the number of rows whose
status is 'pending' is strictly below max_unprocessed, and appending a row
whose status is 'processing' never changes the answer: 'processing' rows do
not count toward the ceiling. -/
theorem canProduce_spec (maxUnprocessed : Nat) (s : QueueState) :
    (canProduce maxUnprocessed s = true ↔ countPendingSpec s < maxUnprocessed)
    ∧ ∀ r : Row, r.status = Status.processing →
        canProduce maxUnprocessed ⟨s.rows ++ [r]⟩ = canProduce maxUnprocessed s := by
  constructor
  · rw [← countUnprocessed_eq_countPendingSpec]
    exact canProduce_true_iff maxUnprocessed s
  · intro r hr
    simp [canProduce, countUnprocessed, List.filter_append, hr]

def rowProc : Row := ⟨"busy", 0, Status.processing, none⟩

def demoProcState : QueueState := ⟨[rowProc]⟩

/-- Witness for C4 at a concrete store holding one 'processing' row. -/
theorem canProduce_spec_witness :
    canProduce 1 ⟨demoProcState.rows ++ [rowProc]⟩ = canProduce 1 demoProcState :=
  (canProduce_spec 1 demoProcState).2 rowProc (by decide)

/-- C5: add_output on a fresh key appends exactly one 'pending' row carrying
the current timestamp and a null processed_at, and returns true; on an
existing key it returns false and the table is exactly as before (in
particular the existing row's created_at is untouched). -/
theorem addOutput_spec (now : Nat) (key : String) (s : QueueState) :
    (containsKey s key = false →
       addOutput now key s =
         (true, ⟨s.rows ++ [⟨key, now, Status.pending, none⟩]⟩))
    ∧ (containsKey s key = true → addOutput now key s = (false, s)) := by
  constructor
  · intro h
    simp [addOutput, h]
  · intro h
    simp [addOutput, h]

def keyFresh : String := "item-1"

def rowOld : Row := ⟨"item-0", 3, Status.pending, none⟩

def demoAddState : QueueState := ⟨[rowOld]⟩

/-- Witness for C5: both branches of add_output at a concrete store. -/
theorem addOutput_spec_witness :
    addOutput 7 keyFresh demoAddState =
      (true, ⟨demoAddState.rows ++ [⟨keyFresh, 7, Status.pending, none⟩]⟩)
    ∧ addOutput 9 rowOld.key demoAddState = (false, demoAddState) :=
  ⟨(addOutput_spec 7 keyFresh demoAddState).1 (by decide),
   (addOutput_spec 9 rowOld.key demoAddState).2 (by decide)⟩

theorem markProcessing_map_id (key : String) (s : QueueState)
    (h : (s.rows.any (fun r => r.key == key && r.status == Status.pending)) = false) :
    (markProcessing key s).2 = s := by
  have hall := List.any_eq_false.mp h
  show (⟨s.rows.map _⟩ : QueueState) = s
  congr 1
  conv_rhs => rw [← List.map_id s.rows]
  apply List.map_congr_left
  intro r hr
  rw [if_neg (hall r hr)]
  rfl

/-- C6: mark_processing returns true exactly when a row for the key exists
with status 'pending'; when it returns false the table is untouched; and
after a successful transition a second call for the same key returns false
(exactly one of two serialized calls succeeds). -/
theorem markProcessing_cas (key : String) (s : QueueState) :
    ((markProcessing key s).1 = true ↔
       ∃ r ∈ s.rows, r.key = key ∧ r.status = Status.pending)
    ∧ ((markProcessing key s).1 = false → (markProcessing key s).2 = s)
    ∧ ((markProcessing key s).1 = true →
         (markProcessing key ((markProcessing key s).2)).1 = false) := by
  refine ⟨?_, ?_, ?_⟩
  · simp [markProcessing, List.any_eq_true]
  · intro h
    exact markProcessing_map_id key s h
  · intro _
    show ((markProcessing key s).2.rows.any
        (fun r => r.key == key && r.status == Status.pending)) = false
    rw [List.any_eq_false]
    intro r' hr'
    show ¬ (r'.key == key && r'.status == Status.pending) = true
    intro hmatch
    have hmem : r' ∈ s.rows.map (fun r =>
        if r.key == key && r.status == Status.pending then
          { r with status := Status.processing }
        else r) := hr'
    obtain ⟨r, _, hupd⟩ := List.mem_map.mp hmem
    by_cases hc : (r.key == key && r.status == Status.pending) = true
    · rw [if_pos hc] at hupd
      subst hupd
      simp at hmatch
    · rw [if_neg hc] at hupd
      subst hupd
      exact hc hmatch

def keyCas : String := "cas-item"

def demoCasState : QueueState := ⟨[⟨keyCas, 4, Status.pending, none⟩]⟩

/-- Witness for C6: at a concrete store with one pending row, the first
mark_processing returns true and the second returns false. -/
theorem markProcessing_cas_witness :
    (markProcessing keyCas demoCasState).1 = true
    ∧ (markProcessing keyCas ((markProcessing keyCas demoCasState).2)).1 = false := by
  have h1 : (markProcessing keyCas demoCasState).1 = true :=
    (markProcessing_cas keyCas demoCasState).1.mpr (by decide)
  exact ⟨h1, (markProcessing_cas keyCas demoCasState).2.2 h1⟩

theorem oldestRow_none_iff (l : List Row) : oldestRow l = none ↔ l = [] := by
  cases l with
  | nil => simp [oldestRow]
  | cons r rest =>
    simp only [oldestRow]
    cases h : oldestRow rest with
    | none => simp
    | some b =>
      constructor
      · intro hc
        by_cases hle : r.created_at ≤ b.created_at <;> simp [hle] at hc
      · intro hc
        simp at hc

theorem oldestRow_mem_min (l : List Row) :
    ∀ r, oldestRow l = some r →
      r ∈ l ∧ ∀ r' ∈ l, r.created_at ≤ r'.created_at := by
  induction l with
  | nil => intro r h; simp [oldestRow] at h
  | cons a rest ih =>
    intro r h
    cases hrest : oldestRow rest with
    | none =>
      simp only [oldestRow, hrest] at h
      have hempty : rest = [] := (oldestRow_none_iff rest).mp hrest
      subst hempty
      injection h with h
      subst h
      simp
    | some b =>
      simp only [oldestRow, hrest] at h
      have hb := ih b hrest
      by_cases hle : a.created_at ≤ b.created_at
      · rw [if_pos hle] at h
        injection h with h
        subst h
        refine ⟨List.mem_cons_self _ _, ?_⟩
        intro r' hr'
        rcases List.mem_cons.mp hr' with h1 | h1
        · subst h1; exact le_refl _
        · exact le_trans hle (hb.2 r' h1)
      · rw [if_neg hle] at h
        injection h with h
        subst h
        refine ⟨List.mem_cons_of_mem _ hb.1, ?_⟩
        intro r' hr'
        rcases List.mem_cons.mp hr' with h1 | h1
        · subst h1; exact le_of_not_le hle
        · exact hb.2 r' h1

/-- C7: get_next_pending is a pure read (the embedding returns no state);
it yields none exactly when no pending row exists, and otherwise the key of
a pending row whose created_at is minimal among all pending rows, so
repeated calls without intervening mutation agree. -/
theorem getNextPending_spec (s : QueueState) :
    (getNextPending s = none ↔ ∀ r ∈ s.rows, r.status ≠ Status.pending)
    ∧ (∀ k, getNextPending s = some k →
        ∃ r ∈ s.rows, r.key = k ∧ r.status = Status.pending ∧
          ∀ r' ∈ s.rows, r'.status = Status.pending →
            r.created_at ≤ r'.created_at) := by
  constructor
  · rw [getNextPending, Option.map_eq_none', oldestRow_none_iff,
      List.filter_eq_nil_iff]
    simp
  · intro k hk
    rw [getNextPending, Option.map_eq_some'] at hk
    obtain ⟨r, hr, hkey⟩ := hk
    have hmem := oldestRow_mem_min _ r hr
    have hrs := List.mem_filter.mp hmem.1
    refine ⟨r, hrs.1, hkey, by simpa using hrs.2, ?_⟩
    intro r' hr' hst
    exact hmem.2 r' (List.mem_filter.mpr ⟨hr', by simp [hst]⟩)

def keyEarly : String := "early"

def keyLate : String := "late"

def demoFifoState : QueueState :=
  ⟨[⟨keyLate, 10, Status.pending, none⟩, ⟨keyEarly, 2, Status.pending, none⟩]⟩

/-- Witness for C7: on a concrete store with two pending rows the read
returns the earlier-created key together with its minimality. -/
theorem getNextPending_spec_witness :
    ∃ r ∈ demoFifoState.rows, r.key = keyEarly ∧ r.status = Status.pending ∧
      ∀ r' ∈ demoFifoState.rows, r'.status = Status.pending →
        r.created_at ≤ r'.created_at :=
  (getNextPending_spec demoFifoState).2 keyEarly (by decide)

def keyC8 : String := "c8-item"

def demoC8State : QueueState := ⟨[⟨keyC8, 1, Status.pending, none⟩]⟩

/-- C8 counterexample: a successful pending→processing transition leaves
processed_at empty — the UPDATE in mark_processing sets only the status
column, never processed_at, contradicting the claim that processed_at is
set to a timestamp after a successful transition. -/
theorem markProcessing_leaves_processed_at_empty :
    (markProcessing keyC8 demoC8State).1 = true
    ∧ (markProcessing keyC8 demoC8State).2.rows.map Row.status = [Status.processing]
    ∧ (markProcessing keyC8 demoC8State).2.rows.map Row.processed_at = [none] := by
  decide

/-- C8 amended: mark_processing never writes processed_at — the field of
every row is exactly what it was before the call (in particular it stays
null for rows inserted by add_output). -/
theorem markProcessing_preserves_processed_at (key : String) (s : QueueState) :
    (markProcessing key s).2.rows.map Row.processed_at =
      s.rows.map Row.processed_at := by
  show (s.rows.map _).map Row.processed_at = _
  rw [List.map_map]
  apply List.map_congr_left
  intro r _
  by_cases hc : (r.key == key && r.status == Status.pending) = true
  · simp only [Function.comp_apply, if_pos hc]
  · simp only [Function.comp_apply, if_neg hc]

/-- Behaviour of the external collaborators for one work item, as seen by
the per-item pipeline in main.py:
- `raises`: modality.process_annotation or writer.write raises an exception;
- `skip`: process_annotation returns a falsy output (geometry mismatch);
- `produce key`: process_annotation returns an output and writer.write
  persists it at path `key`. -/
inductive ItemBehavior where
  | raises
  | skip
  | produce (key : String)
deriving DecidableEq

/-- One item of a batch: the wall-clock timestamp that `time.time()` would
return at its add_output call, its collaborator behaviour, and its
annotation id. -/
structure WorkItem where
  time : Nat
  behavior : ItemBehavior
  itemId : String
deriving DecidableEq

/-- Result tuple of the per-item pipeline: (success, path, annotation id). -/
abbrev ItemOutcome := Bool × Option String × String

/-- The function `_process_single_annotation` in main.py: the whole body sits
in a try/except that converts any exception into the failed outcome
`(False, None, annotation.id)`.  A falsy output short-circuits with the same
tuple; otherwise the artifact is written and the path registered via
add_output, the outcome's success flag being add_output's return value.
The leading admission-control wait only polls can_produce and sleeps — it
performs no store mutation, so in this serialized embedding it is the
identity on the state (its gating role under concurrency is modelled by
`PoolStep` below). -/
def processSingleItem (it : WorkItem) (s : QueueState) :
    ItemOutcome × QueueState :=
  match it.behavior with
  | ItemBehavior.raises => ((false, none, it.itemId), s)
  | ItemBehavior.skip => ((false, none, it.itemId), s)
  | ItemBehavior.produce key =>
      let res := addOutput it.time key s
      ((res.1, some key, it.itemId), res.2)

/-- The concurrent batch path of main.py (num_workers > 1): every item of
the batch is submitted to the pool through `_process_single_annotation`; this
is one serialization of those executions, threading the shared store. -/
def parRun : List WorkItem → QueueState → List ItemOutcome × QueueState
  | [], s => ([], s)
  | it :: rest, s =>
      let step := processSingleItem it s
      let tail := parRun rest step.2
      (step.1 :: tail.1, tail.2)

theorem parRun_append (l1 l2 : List WorkItem) (s : QueueState) :
    parRun (l1 ++ l2) s =
      ((parRun l1 s).1 ++ (parRun l2 (parRun l1 s).2).1,
       (parRun l2 (parRun l1 s).2).2) := by
  induction l1 generalizing s with
  | nil => simp [parRun]
  | cons it rest ih =>
    simp only [List.cons_append, parRun]
    rw [show rest.append l2 = rest ++ l2 from rfl, ih]

/-- C1 amended (concurrent path): an item whose collaborator raises yields
exactly the failed outcome (false, none, its id) and leaves the store
untouched, so every sibling item of the batch is still attempted and
receives exactly the outcome it would have received had the raising item
not been in the batch. -/
theorem parRun_isolation (l1 l2 : List WorkItem) (t : Nat) (aid : String)
    (s : QueueState) :
    parRun (l1 ++ ⟨t, ItemBehavior.raises, aid⟩ :: l2) s =
      ((parRun l1 s).1 ++ (false, none, aid) :: (parRun l2 (parRun l1 s).2).1,
       (parRun l2 (parRun l1 s).2).2)
    ∧ parRun (l1 ++ l2) s =
        ((parRun l1 s).1 ++ (parRun l2 (parRun l1 s).2).1,
         (parRun l2 (parRun l1 s).2).2) := by
  constructor
  · rw [parRun_append]
    simp [parRun, processSingleItem]
  · exact parRun_append l1 l2 s

/-- C9: when the artifact write succeeded but the key is already present in
the store, the outcome still carries the written file's path with the
success flag false (produced, but not newly queued) and the store is
unchanged. -/
theorem processSingleItem_duplicate (it : WorkItem) (key : String)
    (s : QueueState) (hb : it.behavior = ItemBehavior.produce key)
    (h : containsKey s key = true) :
    processSingleItem it s = ((false, some key, it.itemId), s) := by
  simp [processSingleItem, hb, addOutput, h]

def keyDup : String := "dup-item"

def demoDupState : QueueState := ⟨[⟨keyDup, 5, Status.pending, none⟩]⟩

def dupItem : WorkItem := ⟨6, ItemBehavior.produce keyDup, "ann-1"⟩

/-- Witness for C9 at a concrete store that already holds the key. -/
theorem processSingleItem_duplicate_witness :
    processSingleItem dupItem demoDupState =
      ((false, some keyDup, dupItem.itemId), demoDupState) :=
  processSingleItem_duplicate dupItem keyDup demoDupState (by decide) (by decide)

/-- Result of one sequential modality run in main.py: how many items were
started, the paths appended to saved_paths, and the final store.
`done` is normal exhaustion of the item list; `blocked` is the producer
parked for ever inside wait_until_can_produce (no consumer drains the
store); `aborted` is an exception escaping the per-item loop — the inlined
sequential loop has no per-item handler, so the exception reaches the
per-modality try/except and the remaining items are never attempted. -/
inductive SeqResult where
  | done (attempted : Nat) (saved : List String) (final : QueueState)
  | blocked (attempted : Nat) (saved : List String) (final : QueueState)
  | aborted (attempted : Nat) (saved : List String) (final : QueueState)
deriving DecidableEq

/-- The inlined sequential loop of main.py (num_workers = 1, per-item output
format), flattened over batch boundaries (batching only affects progress
printing): for each item, first the admission gate — with no consumer a
false can_produce means waiting for ever — then process_annotation, then
writer.write (appending to saved_paths), then add_output. -/
def seqRun (maxUnprocessed : Nat) :
    List WorkItem → QueueState → Nat → List String → SeqResult
  | [], s, att, saved => SeqResult.done att saved.reverse s
  | it :: rest, s, att, saved =>
    if canProduce maxUnprocessed s then
      match it.behavior with
      | ItemBehavior.raises => SeqResult.aborted (att + 1) saved.reverse s
      | ItemBehavior.skip => seqRun maxUnprocessed rest s (att + 1) saved
      | ItemBehavior.produce key =>
          seqRun maxUnprocessed rest (addOutput it.time key s).2 (att + 1)
            (key :: saved)
    else SeqResult.blocked att saved.reverse s

def emptyQueue : QueueState := ⟨[]⟩

/-- C1 counterexample: in sequential mode a batch of two items whose first
item raises ends as an aborted run with only one item attempted — the second
item is never attempted, so the exception is not confined to the raising
item. -/
theorem seqRun_aborts_on_raise :
    seqRun 10 [⟨0, ItemBehavior.raises, "ann-1"⟩,
               ⟨1, ItemBehavior.produce "f1", "ann-2"⟩] emptyQueue 0 [] =
      SeqResult.aborted 1 [] emptyQueue := by
  decide

theorem countUnprocessed_addOutput_le (now : Nat) (key : String)
    (s : QueueState) :
    countUnprocessed (addOutput now key s).2 ≤ countUnprocessed s + 1 := by
  by_cases h : containsKey s key
  · simp [addOutput, h]
  · simp [addOutput, h, countUnprocessed, List.filter_append]

/-- Sampled pending counts of the sequential loop: the value of
count_unprocessed() observed immediately after every add_output call of a
sequential run (the sampling described by the spec's testable property 2).
The loop structure is that of `seqRun`: the admission gate parks the
producer for ever once the ceiling is reached, an exception ends the loop,
a skipped item performs no add. -/
def seqAddCounts (maxUnprocessed : Nat) : List WorkItem → QueueState → List Nat
  | [], _ => []
  | it :: rest, s =>
    if canProduce maxUnprocessed s then
      match it.behavior with
      | ItemBehavior.raises => []
      | ItemBehavior.skip => seqAddCounts maxUnprocessed rest s
      | ItemBehavior.produce key =>
          countUnprocessed (addOutput it.time key s).2 ::
            seqAddCounts maxUnprocessed rest (addOutput it.time key s).2
    else []

/-- C3: in a sequential run every add_output call happens from a state the
admission gate let through (pending count strictly below the ceiling), so
the pending count sampled right after every add never exceeds
max_unprocessed. -/
theorem seqRun_ceiling (maxUnprocessed : Nat) (items : List WorkItem)
    (s : QueueState) (c : Nat)
    (hc : c ∈ seqAddCounts maxUnprocessed items s) :
    c ≤ maxUnprocessed := by
  induction items generalizing s with
  | nil => simp [seqAddCounts] at hc
  | cons it rest ih =>
    by_cases hg : canProduce maxUnprocessed s
    · have hlt : countUnprocessed s < maxUnprocessed :=
        (canProduce_true_iff maxUnprocessed s).mp hg
      cases hb : it.behavior with
      | raises => simp [seqAddCounts, hg, hb] at hc
      | skip =>
        simp only [seqAddCounts, if_pos hg, hb] at hc
        exact ih s hc
      | produce key =>
        simp only [seqAddCounts, if_pos hg, hb, List.mem_cons] at hc
        rcases hc with hc | hc
        · subst hc
          have := countUnprocessed_addOutput_le it.time key s
          omega
        · exact ih _ hc
    · simp [seqAddCounts, hg] at hc

def itemA : WorkItem := ⟨0, ItemBehavior.produce "grid-a", "ann-a"⟩

def itemB : WorkItem := ⟨1, ItemBehavior.produce "grid-b", "ann-b"⟩

/-- Witness for C3: a concrete sequential run with ceiling 1 whose sampled
counts contain the value 1, which the theorem bounds by the ceiling. -/
theorem seqRun_ceiling_witness :
    1 ∈ seqAddCounts 1 [itemA, itemB] emptyQueue ∧ 1 ≤ 1 :=
  ⟨by decide, seqRun_ceiling 1 [itemA, itemB] emptyQueue 1 (by decide)⟩

/-- Output formats accepted by main.py's writer dispatch: 'tif'/'tiff' build
a TIFWriter (one file per item, queue-registered), 'h5'/'hdf5' an HDF5Writer
(one container per run). -/
inductive OutputFormat where
  | tif
  | hdf5
deriving DecidableEq

/-- The HDF5 branches of main.py (incremental lines 309-329, non-incremental
lines 413-439): every item's output is collected in memory
(all_modality_outputs), and after the loop write_all persists them in one
container whose path `h5path` joins saved_paths only when at least one
output was collected.  An exception escapes the loop (no per-item handler)
and reaches the per-modality try, before write_all ran.  The branch never
touches the queue manager: no can_produce, no wait, no add_output. -/
def hdf5Run (h5path : String) :
    List WorkItem → QueueState → Nat → Nat → SeqResult
  | [], s, att, collected =>
      SeqResult.done att (if collected > 0 then [h5path] else []) s
  | it :: rest, s, att, collected =>
    match it.behavior with
    | ItemBehavior.raises => SeqResult.aborted (att + 1) [] s
    | ItemBehavior.skip => hdf5Run h5path rest s (att + 1) collected
    | ItemBehavior.produce _ => hdf5Run h5path rest s (att + 1) (collected + 1)

/-- Final queue state carried by a modality-run result. -/
def queueOf : SeqResult → QueueState
  | SeqResult.done _ _ s => s
  | SeqResult.blocked _ _ s => s
  | SeqResult.aborted _ _ s => s

/-- Whether the run ended parked inside wait_until_can_produce. -/
def isBlocked : SeqResult → Bool
  | SeqResult.blocked _ _ _ => true
  | SeqResult.done _ _ _ => false
  | SeqResult.aborted _ _ _ => false

/-- One sequential modality run of main.py, dispatched on output format as
the writer-construction branch does. -/
def runModalitySeq (fmt : OutputFormat) (maxUnprocessed : Nat)
    (h5path : String) (items : List WorkItem) (s : QueueState) : SeqResult :=
  match fmt with
  | OutputFormat.tif => seqRun maxUnprocessed items s 0 []
  | OutputFormat.hdf5 => hdf5Run h5path items s 0 0

theorem hdf5Run_frame (h5path : String) (items : List WorkItem)
    (s : QueueState) : ∀ att collected : Nat,
    queueOf (hdf5Run h5path items s att collected) = s
    ∧ isBlocked (hdf5Run h5path items s att collected) = false := by
  induction items with
  | nil =>
    intro att collected
    by_cases h : collected > 0 <;> simp [hdf5Run, queueOf, isBlocked, h]
  | cons it rest ih =>
    intro att collected
    cases hb : it.behavior with
    | raises => simp [hdf5Run, hb, queueOf, isBlocked]
    | skip =>
      simp only [hdf5Run, hb]
      exact ih (att + 1) collected
    | produce key =>
      simp only [hdf5Run, hb]
      exact ih (att + 1) (collected + 1)

/-- C10: a modality run whose output format is the batched HDF5 container
leaves the queue exactly as it found it, never parks in the admission wait,
and its whole result is independent of the max_unprocessed ceiling — the
branch neither consults admission control nor inserts into the store. -/
theorem hdf5_no_queue_effect (maxUnprocessed maxOther : Nat)
    (h5path : String) (items : List WorkItem) (s : QueueState) :
    queueOf (runModalitySeq OutputFormat.hdf5 maxUnprocessed h5path items s) = s
    ∧ isBlocked (runModalitySeq OutputFormat.hdf5 maxUnprocessed h5path items s)
        = false
    ∧ runModalitySeq OutputFormat.hdf5 maxUnprocessed h5path items s =
        runModalitySeq OutputFormat.hdf5 maxOther h5path items s := by
  refine ⟨(hdf5Run_frame h5path items s 0 0).1,
    (hdf5Run_frame h5path items s 0 0).2, rfl⟩

theorem countUnprocessed_markProcessing_le (key : String) (s : QueueState) :
    countUnprocessed (markProcessing key s).2 ≤ countUnprocessed s := by
  show ((s.rows.map _).filter _).length ≤ _
  rw [← List.countP_eq_length_filter, List.countP_map, countUnprocessed,
    ← List.countP_eq_length_filter]
  apply List.countP_mono_left
  intro r _ hp
  simp only [Function.comp_apply] at hp
  by_cases hc : (r.key == key && r.status == Status.pending) = true
  · rw [if_pos hc] at hp
    simp at hp
  · rw [if_neg hc] at hp
    exact hp

theorem countUnprocessed_markCompleted_le (key : String) (s : QueueState) :
    countUnprocessed (markCompleted key s) ≤ countUnprocessed s := by
  show ((s.rows.filter _).filter _).length ≤ _
  exact ((List.filter_sublist s.rows).filter _).length_le

/-- Shared state of a concurrent run of main.py with W workers: the durable
store plus the set of workers that have passed their admission check (the
read of can_produce inside `_process_single_annotation` that observed a
pending count below the ceiling) and have not yet reached their add_output
call.  Everything between those two points — process_annotation and
writer.write — does not touch the store. -/
structure PoolState (W : Nat) where
  queue : QueueState
  armed : Finset (Fin W)

/-- Interleaved transitions of the concurrent producer run together with an
out-of-process consumer:
- `pass`: an idle worker's admission read sees can_produce() true (directly,
  or as the exit condition of the wait_until_can_produce poll loop) and the
  worker enters its produce-write-enqueue section;
- `enqueue`: a worker past its check performs its add_output;
- `giveUp`: a worker past its check ends its item without an add (falsy
  output, duplicate-free exception path);
- `drainMark` / `drainDone`: the consumer side calls mark_processing or
  mark_completed concurrently. -/
inductive PoolStep (maxUnprocessed W : Nat) :
    PoolState W → PoolState W → Prop
  | pass (s : PoolState W) (w : Fin W) (hw : w ∉ s.armed)
      (hc : canProduce maxUnprocessed s.queue = true) :
      PoolStep maxUnprocessed W s ⟨s.queue, insert w s.armed⟩
  | enqueue (s : PoolState W) (w : Fin W) (now : Nat) (key : String)
      (hw : w ∈ s.armed) :
      PoolStep maxUnprocessed W s
        ⟨(addOutput now key s.queue).2, s.armed.erase w⟩
  | giveUp (s : PoolState W) (w : Fin W) (hw : w ∈ s.armed) :
      PoolStep maxUnprocessed W s ⟨s.queue, s.armed.erase w⟩
  | drainMark (s : PoolState W) (key : String) :
      PoolStep maxUnprocessed W s ⟨(markProcessing key s.queue).2, s.armed⟩
  | drainDone (s : PoolState W) (key : String) :
      PoolStep maxUnprocessed W s ⟨markCompleted key s.queue, s.armed⟩

/-- Inductive bound: pending rows plus workers inside their check-to-add
window stay below ceiling + W. -/
def poolInv (maxUnprocessed W : Nat) (s : PoolState W) : Prop :=
  countUnprocessed s.queue + s.armed.card < maxUnprocessed + W

theorem poolStep_inv {maxUnprocessed W : Nat} {s t : PoolState W}
    (h : PoolStep maxUnprocessed W s t)
    (hinv : poolInv maxUnprocessed W s) :
    poolInv maxUnprocessed W t := by
  cases h with
  | pass w hw hc =>
    have h1 : countUnprocessed s.queue < maxUnprocessed :=
      (canProduce_true_iff _ _).mp hc
    have h2 : (insert w s.armed).card = s.armed.card + 1 :=
      Finset.card_insert_of_not_mem hw
    have h3 : (insert w s.armed).card ≤ W := by
      have := Finset.card_le_univ (insert w s.armed)
      simpa using this
    simp only [poolInv] at hinv ⊢
    omega
  | enqueue w now key hw =>
    have h1 := countUnprocessed_addOutput_le now key s.queue
    have h2 : (s.armed.erase w).card = s.armed.card - 1 :=
      Finset.card_erase_of_mem hw
    have h3 : 1 ≤ s.armed.card := Finset.card_pos.mpr ⟨w, hw⟩
    simp only [poolInv] at hinv ⊢
    omega
  | giveUp w hw =>
    have h2 : (s.armed.erase w).card ≤ s.armed.card := Finset.card_erase_le
    simp only [poolInv] at hinv ⊢
    omega
  | drainMark key =>
    have h1 := countUnprocessed_markProcessing_le key s.queue
    simp only [poolInv] at hinv ⊢
    omega
  | drainDone key =>
    have h1 := countUnprocessed_markCompleted_le key s.queue
    simp only [poolInv] at hinv ⊢
    omega

/-- C2: in every concurrent run with W workers whose admission checks gate
each worker's own add_output — started from a store within the bound, e.g.
empty — the pending count observed at any reachable state never exceeds
max_unprocessed + (W - 1): the overshoot past the ceiling is bounded by the
number of sibling workers that can sit between their check and their add. -/
theorem boundedOvershoot {maxUnprocessed W : Nat} (hW : 1 ≤ W)
    {s0 s : PoolState W}
    (h0 : countUnprocessed s0.queue + s0.armed.card < maxUnprocessed + W)
    (hr : Relation.ReflTransGen (PoolStep maxUnprocessed W) s0 s) :
    countUnprocessed s.queue ≤ maxUnprocessed + (W - 1) := by
  have hinv : poolInv maxUnprocessed W s := by
    induction hr with
    | refl => exact h0
    | tail _ hstep ih => exact poolStep_inv hstep ih
  simp only [poolInv] at hinv
  omega

def poolInit : PoolState 2 := ⟨emptyQueue, ∅⟩

/-- Witness for C2: two workers, ceiling 3, empty initial store, observed at
the initial state of the reachability relation. -/
theorem boundedOvershoot_witness :
    countUnprocessed poolInit.queue ≤ 3 + (2 - 1) :=
  boundedOvershoot (by decide) (by decide) Relation.ReflTransGen.refl
